import Mathlib

/-!
Shallow embedding of the password generator and strength analyzer
(`script.js`) of the Password-Generator repository, with theorems checking
the natural-language specification against the code.

Randomness (`crypto.getRandomValues` producing one unsigned 32-bit value
per call) is modelled by an abstract stream of natural numbers together
with a cursor; every theorem about generation quantifies over all streams,
i.e. over every possible sequence of random draws.
-/

namespace PasswordGen

/-- The character set constants of the `charSets` object in the source.
Braces, quote, apostrophe and backtick are written with `\xNN` escapes. -/
def charSets.uppercase : List Char := "ABCDEFGHIJKLMNOPQRSTUVWXYZ".toList

/-- `charSets.lowercase` from the source. -/
def charSets.lowercase : List Char := "abcdefghijklmnopqrstuvwxyz".toList

/-- `charSets.numbers` from the source. -/
def charSets.numbers : List Char := "0123456789".toList

/-- `charSets.symbols` from the source. -/
def charSets.symbols : List Char := "!@#$%^&*()_+-=[]\x7b\x7d|;:,.<>?".toList

/-- `charSets.similar` from the source. -/
def charSets.similar : List Char := "0Oo1lI".toList

/-- `charSets.ambiguous` from the source (the JS literal
`'{}[]()\/\\"\'\`~,;.<>'`). -/
def charSets.ambiguous : List Char := "\x7b\x7d[]()/\\\x22\x27\x60~,;.<>".toList

/-- Model of the cryptographically secure random source: an arbitrary
stream of drawn 32-bit values (as naturals) and a cursor into it.  Each
call to `crypto.getRandomValues` consumes one value. -/
structure RandomSource where
  stream : Nat → Nat
  idx : Nat

/-- Consume one random value from the source. -/
def RandomSource.next (r : RandomSource) : Nat × RandomSource :=
  (r.stream r.idx, ⟨r.stream, r.idx + 1⟩)

/-- `getRandomChar`: draw one 32-bit value and index the charset by
`value % charset.length`.  On an empty charset the JS code would yield
`undefined`; the embedding returns the placeholder `'?'`, which is never
reached from validated options. -/
def getRandomChar (charset : List Char) (r : RandomSource) : Char × RandomSource :=
  let p := r.next
  (charset.getD (p.1 % charset.length) '?', p.2)

/-- `removeChars`: filter out of `charset` every character occurring in
`charsToRemove` (JS `split/filter/join`). -/
def removeChars (charset charsToRemove : List Char) : List Char :=
  charset.filter (fun c => !(charsToRemove.contains c))

/-- `GenerationOptions` of the spec, i.e. the object built by
`getPasswordOptions` in the source. -/
structure GenerationOptions where
  length : Nat
  includeUppercase : Bool
  includeLowercase : Bool
  includeNumbers : Bool
  includeSymbols : Bool
  excludeSimilar : Bool
  excludeAmbiguous : Bool

/-- `validateOptions`: at least one `include*` flag must be set. -/
def validateOptions (o : GenerationOptions) : Bool :=
  o.includeUppercase || o.includeLowercase || o.includeNumbers || o.includeSymbols

/-- The uppercase class as filtered inside `createPassword`:
`excludeSimilar` strips the similar set. -/
def filteredUpper (o : GenerationOptions) : List Char :=
  if o.excludeSimilar then removeChars charSets.uppercase charSets.similar
  else charSets.uppercase

/-- The lowercase class as filtered inside `createPassword`. -/
def filteredLower (o : GenerationOptions) : List Char :=
  if o.excludeSimilar then removeChars charSets.lowercase charSets.similar
  else charSets.lowercase

/-- The digit class as filtered inside `createPassword`. -/
def filteredNumbers (o : GenerationOptions) : List Char :=
  if o.excludeSimilar then removeChars charSets.numbers charSets.similar
  else charSets.numbers

/-- The symbol class as filtered inside `createPassword`: only
`excludeAmbiguous` applies to it. -/
def filteredSymbols (o : GenerationOptions) : List Char :=
  if o.excludeAmbiguous then removeChars charSets.symbols charSets.ambiguous
  else charSets.symbols

/-- The selected, filtered classes in the order the source visits them
(uppercase, lowercase, numbers, symbols). -/
def selectedClasses (o : GenerationOptions) : List (List Char) :=
  (if o.includeUppercase then [filteredUpper o] else []) ++
  (if o.includeLowercase then [filteredLower o] else []) ++
  (if o.includeNumbers then [filteredNumbers o] else []) ++
  (if o.includeSymbols then [filteredSymbols o] else [])

/-- The full charset of `createPassword`: concatenation of the selected,
filtered classes, without deduplication. -/
def charsetOf (o : GenerationOptions) : List Char :=
  (selectedClasses o).flatten

/-- The `guaranteedChars` loop of `createPassword`: one `getRandomChar`
draw per selected class, in source order. -/
def drawGuaranteed : List (List Char) → RandomSource → List Char × RandomSource
  | [], r => ([], r)
  | cs :: rest, r =>
    let p := getRandomChar cs r
    let q := drawGuaranteed rest p.2
    (p.1 :: q.1, q.2)

/-- The `randomChars` loop of `createPassword`: `k` successive
`getRandomChar` draws from the full charset. -/
def drawChars : Nat → List Char → RandomSource → List Char × RandomSource
  | 0, _, r => ([], r)
  | k + 1, cs, r =>
    let p := getRandomChar cs r
    let q := drawChars k cs p.2
    (p.1 :: q.1, q.2)

/-- One Fisher-Yates swap: the JS destructuring
`[array[i], array[j]] = [array[j], array[i]]` (indices always in range in
the source loop). -/
def swapList (l : List Char) (i j : Nat) : List Char :=
  (l.set i (l.getD j 'A')).set j (l.getD i 'A')

/-- The `shuffleArray` loop body, recursing on the loop variable `i`
(from `array.length - 1` down to `1`): `j = value % (i + 1)`, then swap. -/
def shuffleAux : List Char → Nat → RandomSource → List Char × RandomSource
  | l, 0, r => (l, r)
  | l, m + 1, r =>
    let p := r.next
    shuffleAux (swapList l (m + 1) (p.1 % (m + 1 + 1))) m p.2

/-- `shuffleArray`: Fisher-Yates shuffle with crypto random. -/
def shuffleArray (l : List Char) (r : RandomSource) : List Char × RandomSource :=
  shuffleAux l (l.length - 1) r

/-- `createPassword`: guaranteed characters (one per selected class), then
`options.length - guaranteedChars.length` further draws from the full
charset (a negative remainder runs the JS loop zero times, exactly like
truncated `Nat` subtraction), then a Fisher-Yates shuffle, joined to a
string. -/
def createPassword (o : GenerationOptions) (r0 : RandomSource) : String :=
  let g := drawGuaranteed (selectedClasses o) r0
  let remainingLength := o.length - g.1.length
  let rc := drawChars remainingLength (charsetOf o) g.2
  let allChars := g.1 ++ rc.1
  ((shuffleArray allChars rc.2).1).asString

/-- The error taxonomy of the spec for generation. -/
inductive GenError where
  | NoCharacterClassSelected
deriving DecidableEq

/-- `generatePassword`: validate, then create.  The source shows an error
toast and returns without a password when validation fails; this is
modelled as `Except.error`. -/
def generatePassword (o : GenerationOptions) (r : RandomSource) :
    Except GenError String :=
  if validateOptions o then Except.ok (createPassword o r)
  else Except.error GenError.NoCharacterClassSelected

/-! Helper lemmas about the generation primitives. -/

/-- Swapping two in-range positions does not change any character count. -/
theorem swapList_count (l : List Char) (i j : Nat) (x : Char)
    (hi : i < l.length) (hj : j < l.length) :
    List.count x (swapList l i j) = List.count x l := by
  have hj' : j < (l.set i (l.getD j 'A')).length := by simpa using hj
  have hci : l[i] = x → 0 < List.count x l := fun h =>
    List.count_pos_iff.mpr (h ▸ List.getElem_mem hi)
  have hcj : l[j] = x → 0 < List.count x l := fun h =>
    List.count_pos_iff.mpr (h ▸ List.getElem_mem hj)
  unfold swapList
  rw [List.count_set _ _ _ _ hj', List.count_set _ _ _ _ hi, List.getElem_set hj']
  simp only [List.getD_eq_getElem l 'A' hj, List.getD_eq_getElem l 'A' hi, ite_self]
  by_cases h1 : l[i] = x <;> by_cases h2 : l[j] = x <;>
    simp_all [beq_iff_eq]

/-- Swapping two in-range positions is a permutation. -/
theorem swapList_perm (l : List Char) (i j : Nat)
    (hi : i < l.length) (hj : j < l.length) :
    List.Perm (swapList l i j) l :=
  List.perm_iff_count.mpr fun x => swapList_count l i j x hi hj

/-- The shuffle loop permutes its input, for every sequence of draws. -/
theorem shuffleAux_perm (m : Nat) (l : List Char) (r : RandomSource)
    (h : m < l.length ∨ m = 0) : List.Perm (shuffleAux l m r).1 l := by
  induction m generalizing l r with
  | zero => exact List.Perm.refl l
  | succ k ih =>
    rcases h with h | h
    · have hj : r.next.1 % (k + 1 + 1) < k + 1 + 1 := Nat.mod_lt _ (Nat.succ_pos _)
      have hsw : List.Perm (swapList l (k + 1) (r.next.1 % (k + 1 + 1))) l :=
        swapList_perm l _ _ h (Nat.lt_of_lt_of_le hj h)
      have hlen : (swapList l (k + 1) (r.next.1 % (k + 1 + 1))).length = l.length := by
        simp [swapList]
      refine List.Perm.trans (ih _ _ ?_) hsw
      by_cases hk : k = 0
      · right; exact hk
      · left; omega
    · exact absurd h (Nat.succ_ne_zero k)

/-- `shuffleArray` returns a permutation of its input, for every input and
every sequence of random draws. -/
theorem shuffleArray_perm (l : List Char) (r : RandomSource) :
    List.Perm (shuffleArray l r).1 l := by
  unfold shuffleArray
  apply shuffleAux_perm
  rcases l with _ | ⟨c, cs⟩
  · right; rfl
  · left; simp

/-- A character drawn from a nonempty charset belongs to it. -/
theorem getRandomChar_mem (cs : List Char) (r : RandomSource) (h : cs ≠ []) :
    (getRandomChar cs r).1 ∈ cs := by
  have hlen : 0 < cs.length := List.length_pos.mpr h
  have hlt : r.next.1 % cs.length < cs.length := Nat.mod_lt _ hlen
  show cs.getD (r.next.1 % cs.length) '?' ∈ cs
  rw [List.getD_eq_getElem _ _ hlt]
  exact List.getElem_mem hlt

/-- One guaranteed character is drawn per selected class. -/
theorem drawGuaranteed_length (cls : List (List Char)) (r : RandomSource) :
    (drawGuaranteed cls r).1.length = cls.length := by
  induction cls generalizing r with
  | nil => rfl
  | cons c rest ih => simp [drawGuaranteed, ih]

/-- `drawChars k` draws exactly `k` characters. -/
theorem drawChars_length (k : Nat) (cs : List Char) (r : RandomSource) :
    (drawChars k cs r).1.length = k := by
  induction k generalizing r with
  | zero => rfl
  | succ n ih => simp [drawChars, ih]

/-- Every character drawn from a nonempty charset belongs to it. -/
theorem drawChars_mem (k : Nat) (cs : List Char) (r : RandomSource) (h : cs ≠ [])
    (c : Char) (hc : c ∈ (drawChars k cs r).1) : c ∈ cs := by
  induction k generalizing r with
  | zero => simp [drawChars] at hc
  | succ n ih =>
    simp only [drawChars, List.mem_cons] at hc
    rcases hc with hc | hc
    · exact hc ▸ getRandomChar_mem cs r h
    · exact ih _ hc

/-- For each selected class, some guaranteed character was drawn from it
(provided every selected class is nonempty). -/
theorem drawGuaranteed_mem (cls : List (List Char)) (r : RandomSource)
    (hne : ∀ cs ∈ cls, cs ≠ []) (tgt : List Char) (htgt : tgt ∈ cls) :
    ∃ c ∈ (drawGuaranteed cls r).1, c ∈ tgt := by
  induction cls generalizing r with
  | nil => simp at htgt
  | cons hd rest ih =>
    rcases List.mem_cons.mp htgt with h | h
    · subst h
      exact ⟨(getRandomChar tgt r).1, by simp [drawGuaranteed],
        getRandomChar_mem tgt r (hne tgt (by simp))⟩
    · obtain ⟨c, hc1, hc2⟩ :=
        ih (getRandomChar hd r).2 (fun a ha => hne a (List.mem_cons_of_mem hd ha)) h
      exact ⟨c, by simp [drawGuaranteed, hc1], hc2⟩

/-- Every character in the guaranteed list belongs to the flattened list
of selected classes (provided every class is nonempty). -/
theorem drawGuaranteed_mem_flatten (cls : List (List Char)) (r : RandomSource)
    (hne : ∀ cs ∈ cls, cs ≠ []) (c : Char) (hc : c ∈ (drawGuaranteed cls r).1) :
    ∃ cs ∈ cls, c ∈ cs := by
  induction cls generalizing r with
  | nil => simp [drawGuaranteed] at hc
  | cons hd rest ih =>
    simp only [drawGuaranteed, List.mem_cons] at hc
    rcases hc with hc | hc
    · exact ⟨hd, by simp, hc ▸ getRandomChar_mem hd r (hne hd (by simp))⟩
    · obtain ⟨cs, h1, h2⟩ :=
        ih (getRandomChar hd r).2 (fun a ha => hne a (List.mem_cons_of_mem hd ha)) hc
      exact ⟨cs, List.mem_cons_of_mem hd h1, h2⟩

/-- Number of selected character classes in the options. -/
def numSelectedClasses (o : GenerationOptions) : Nat :=
  (if o.includeUppercase then 1 else 0) + (if o.includeLowercase then 1 else 0) +
  (if o.includeNumbers then 1 else 0) + (if o.includeSymbols then 1 else 0)

/-- `selectedClasses` has one entry per selected class. -/
theorem selectedClasses_length (o : GenerationOptions) :
    (selectedClasses o).length = numSelectedClasses o := by
  unfold selectedClasses numSelectedClasses
  cases o.includeUppercase <;> cases o.includeLowercase <;>
    cases o.includeNumbers <;> cases o.includeSymbols <;> rfl

/-- `toList` undoes `asString`. -/
theorem toList_asString (l : List Char) : (List.asString l).toList = l := rfl

/-- String length via the underlying character list. -/
theorem string_length_eq (s : String) : s.length = s.toList.length := rfl

/-- The characters of a created password are a permutation of the
guaranteed characters followed by the additionally drawn ones. -/
theorem createPassword_perm (o : GenerationOptions) (r : RandomSource) :
    List.Perm (createPassword o r).toList
      ((drawGuaranteed (selectedClasses o) r).1 ++
        (drawChars (o.length - (drawGuaranteed (selectedClasses o) r).1.length)
          (charsetOf o) (drawGuaranteed (selectedClasses o) r).2).1) := by
  unfold createPassword
  exact shuffleArray_perm _ _

/-- Password length bookkeeping: guaranteed plus additional characters. -/
theorem createPassword_length (o : GenerationOptions) (r : RandomSource) :
    (createPassword o r).length =
      numSelectedClasses o + (o.length - numSelectedClasses o) := by
  rw [string_length_eq, (createPassword_perm o r).length_eq, List.length_append,
    drawGuaranteed_length, drawChars_length, selectedClasses_length]

/-- Every filtered class is nonempty in every option combination. -/
theorem filteredUpper_ne_nil (o : GenerationOptions) : filteredUpper o ≠ [] := by
  unfold filteredUpper; split <;> decide

/-- The filtered lowercase class is never empty. -/
theorem filteredLower_ne_nil (o : GenerationOptions) : filteredLower o ≠ [] := by
  unfold filteredLower; split <;> decide

/-- The filtered digit class is never empty. -/
theorem filteredNumbers_ne_nil (o : GenerationOptions) : filteredNumbers o ≠ [] := by
  unfold filteredNumbers; split <;> decide

/-- The filtered symbol class is never empty. -/
theorem filteredSymbols_ne_nil (o : GenerationOptions) : filteredSymbols o ≠ [] := by
  unfold filteredSymbols; split <;> decide

/-- Every selected class is nonempty after filtering. -/
theorem selectedClasses_ne_nil (o : GenerationOptions) :
    ∀ cs ∈ selectedClasses o, cs ≠ [] := by
  intro cs h
  unfold selectedClasses at h
  simp only [List.mem_append] at h
  rcases h with ((h | h) | h) | h <;> split at h <;>
    simp only [List.mem_singleton, List.not_mem_nil] at h <;> subst h
  · exact filteredUpper_ne_nil o
  · exact filteredLower_ne_nil o
  · exact filteredNumbers_ne_nil o
  · exact filteredSymbols_ne_nil o

/-- Membership in `selectedClasses` means being one of the four filtered
classes. -/
theorem mem_selectedClasses (o : GenerationOptions) (cs : List Char)
    (h : cs ∈ selectedClasses o) :
    cs = filteredUpper o ∨ cs = filteredLower o ∨
      cs = filteredNumbers o ∨ cs = filteredSymbols o := by
  unfold selectedClasses at h
  simp only [List.mem_append] at h
  rcases h with ((h | h) | h) | h <;> split at h <;>
    simp only [List.mem_singleton, List.not_mem_nil] at h <;> subst h <;> tauto

/-- The full charset is nonempty for validated options. -/
theorem charsetOf_ne_nil (o : GenerationOptions) (hv : validateOptions o = true) :
    charsetOf o ≠ [] := by
  unfold validateOptions at hv
  simp only [Bool.or_eq_true] at hv
  have hex : ∃ cs ∈ selectedClasses o, cs ≠ [] := by
    rcases hv with ((h | h) | h) | h
    · exact ⟨filteredUpper o, by simp [selectedClasses, h], filteredUpper_ne_nil o⟩
    · exact ⟨filteredLower o, by simp [selectedClasses, h], filteredLower_ne_nil o⟩
    · exact ⟨filteredNumbers o, by simp [selectedClasses, h], filteredNumbers_ne_nil o⟩
    · exact ⟨filteredSymbols o, by simp [selectedClasses, h], filteredSymbols_ne_nil o⟩
  obtain ⟨cs, hmem, hne⟩ := hex
  obtain ⟨c, hc⟩ := List.exists_mem_of_ne_nil cs hne
  exact List.ne_nil_of_mem (List.mem_flatten.mpr ⟨cs, hmem, hc⟩)

/-- A guaranteed character ends up in the final password. -/
theorem mem_createPassword_of_guaranteed (o : GenerationOptions) (r : RandomSource)
    (c : Char) (hc : c ∈ (drawGuaranteed (selectedClasses o) r).1) :
    c ∈ (createPassword o r).toList :=
  (createPassword_perm o r).mem_iff.mpr (List.mem_append_left _ hc)

/-- With `excludeSimilar` set, no selected class retains a similar-set
character (the symbol class never contains one to begin with). -/
theorem selected_no_similar (o : GenerationOptions) (hex : o.excludeSimilar = true)
    (cs : List Char) (h : cs ∈ selectedClasses o) (c : Char) (hc : c ∈ cs) :
    c ∉ charSets.similar := by
  have hu : ∀ x ∈ removeChars charSets.uppercase charSets.similar,
      x ∉ charSets.similar := by decide
  have hl : ∀ x ∈ removeChars charSets.lowercase charSets.similar,
      x ∉ charSets.similar := by decide
  have hn : ∀ x ∈ removeChars charSets.numbers charSets.similar,
      x ∉ charSets.similar := by decide
  have hs1 : ∀ x ∈ charSets.symbols, x ∉ charSets.similar := by decide
  have hs2 : ∀ x ∈ removeChars charSets.symbols charSets.ambiguous,
      x ∉ charSets.similar := by decide
  rcases mem_selectedClasses o cs h with h' | h' | h' | h' <;> subst h'
  · rw [filteredUpper, hex] at hc
    exact hu c hc
  · rw [filteredLower, hex] at hc
    exact hl c hc
  · rw [filteredNumbers, hex] at hc
    exact hn c hc
  · rw [filteredSymbols] at hc
    split at hc
    · exact hs2 c hc
    · exact hs1 c hc

/-- C1: for every valid `GenerationOptions` (at least one `include*` flag
true) whose length is at least the number of selected classes, `generate`
succeeds and returns a password of exactly `options.length` characters,
made of `numSelectedClasses` guaranteed characters plus
`options.length - numSelectedClasses` additional ones, for every sequence
of random draws. -/
theorem generate_length_exact (o : GenerationOptions) (r : RandomSource)
    (hv : validateOptions o = true) (hsel : numSelectedClasses o ≤ o.length) :
    generatePassword o r = Except.ok (createPassword o r) ∧
      (createPassword o r).length =
        numSelectedClasses o + (o.length - numSelectedClasses o) ∧
      (createPassword o r).length = o.length := by
  refine ⟨by simp [generatePassword, hv], createPassword_length o r, ?_⟩
  rw [createPassword_length o r]
  omega

/-- Witness for C1 at a concrete input: one class selected, length 8. -/
theorem generate_length_exact_witness :
    validateOptions ⟨8, true, false, false, false, false, false⟩ = true ∧
      numSelectedClasses ⟨8, true, false, false, false, false, false⟩ ≤ 8 ∧
      (createPassword ⟨8, true, false, false, false, false, false⟩
        ⟨fun _ => 0, 0⟩).length = 8 :=
  ⟨by decide, by decide,
    (generate_length_exact ⟨8, true, false, false, false, false, false⟩
      ⟨fun _ => 0, 0⟩ (by decide) (by decide)).2.2⟩

/-- C2 counterexample: with all four classes selected and requested length
2, the code returns a 4-character password, not a 2-character one — the
guaranteed characters are never truncated. -/
theorem short_length_not_truncated :
    ¬ ((createPassword ⟨2, true, true, true, true, false, false⟩
        ⟨fun _ => 0, 0⟩).length = 2) := by
  decide

/-- C2 as the code actually behaves: when `options.length` is smaller than
the number of selected classes, all guaranteed characters are kept and no
additional ones are drawn, so the result has exactly `numSelectedClasses`
characters — longer than requested. -/
theorem short_length_keeps_guaranteed (o : GenerationOptions) (r : RandomSource)
    (h : o.length < numSelectedClasses o) :
    (createPassword o r).length = numSelectedClasses o := by
  rw [createPassword_length o r]
  omega

/-- Witness for the amended C2 at a concrete input. -/
theorem short_length_keeps_guaranteed_witness :
    (2 < numSelectedClasses ⟨2, true, true, true, true, false, false⟩) ∧
      (createPassword ⟨2, true, true, true, true, false, false⟩
        ⟨fun _ => 0, 0⟩).length =
        numSelectedClasses ⟨2, true, true, true, true, false, false⟩ :=
  ⟨by decide, short_length_keeps_guaranteed ⟨2, true, true, true, true, false, false⟩
    ⟨fun _ => 0, 0⟩ (by decide)⟩

/-- C3: for every valid options with length at least the number of
selected classes, the password contains at least one character from each
selected class (as filtered by the exclusion options), for every sequence
of random draws. -/
theorem generate_contains_each_class (o : GenerationOptions) (r : RandomSource)
    (_hv : validateOptions o = true) (_hsel : numSelectedClasses o ≤ o.length) :
    (o.includeUppercase = true →
      ∃ c ∈ (createPassword o r).toList, c ∈ filteredUpper o) ∧
    (o.includeLowercase = true →
      ∃ c ∈ (createPassword o r).toList, c ∈ filteredLower o) ∧
    (o.includeNumbers = true →
      ∃ c ∈ (createPassword o r).toList, c ∈ filteredNumbers o) ∧
    (o.includeSymbols = true →
      ∃ c ∈ (createPassword o r).toList, c ∈ filteredSymbols o) := by
  have key : ∀ tgt ∈ selectedClasses o, ∃ c ∈ (createPassword o r).toList, c ∈ tgt := by
    intro tgt htgt
    obtain ⟨c, hc1, hc2⟩ :=
      drawGuaranteed_mem (selectedClasses o) r (selectedClasses_ne_nil o) tgt htgt
    exact ⟨c, mem_createPassword_of_guaranteed o r c hc1, hc2⟩
  refine ⟨fun h => key _ ?_, fun h => key _ ?_, fun h => key _ ?_, fun h => key _ ?_⟩ <;>
    simp [selectedClasses, h]

/-- Witness for C3 at a concrete input: all four classes, length 8. -/
theorem generate_contains_each_class_witness :
    validateOptions ⟨8, true, true, true, true, false, false⟩ = true ∧
      numSelectedClasses ⟨8, true, true, true, true, false, false⟩ ≤ 8 ∧
      ∃ c ∈ (createPassword ⟨8, true, true, true, true, false, false⟩
        ⟨fun _ => 3, 0⟩).toList,
        c ∈ filteredUpper ⟨8, true, true, true, true, false, false⟩ :=
  ⟨by decide, by decide,
    (generate_contains_each_class ⟨8, true, true, true, true, false, false⟩
      ⟨fun _ => 3, 0⟩ (by decide) (by decide)).1 rfl⟩

/-- C4: with `excludeSimilar` true, no character of the similar set
`"0Oo1lI"` occurs anywhere in the generated password, for every valid
combination of classes and every sequence of random draws. -/
theorem generate_excludes_similar (o : GenerationOptions) (r : RandomSource)
    (hv : validateOptions o = true) (hex : o.excludeSimilar = true) :
    ∀ c ∈ (createPassword o r).toList, c ∉ charSets.similar := by
  intro c hc
  have hmem := (createPassword_perm o r).mem_iff.mp hc
  rcases List.mem_append.mp hmem with hg | hr
  · obtain ⟨cs, hcs, hccs⟩ :=
      drawGuaranteed_mem_flatten (selectedClasses o) r (selectedClasses_ne_nil o) c hg
    exact selected_no_similar o hex cs hcs c hccs
  · have hchar : c ∈ charsetOf o :=
      drawChars_mem _ (charsetOf o) _ (charsetOf_ne_nil o hv) c hr
    obtain ⟨cs, hcs, hccs⟩ := List.mem_flatten.mp hchar
    exact selected_no_similar o hex cs hcs c hccs

/-- Witness for C4 at a concrete input. -/
theorem generate_excludes_similar_witness :
    validateOptions ⟨6, true, true, true, true, true, false⟩ = true ∧
      ∀ c ∈ (createPassword ⟨6, true, true, true, true, true, false⟩
        ⟨fun n => n * 7 + 1, 0⟩).toList, c ∉ charSets.similar :=
  ⟨by decide, generate_excludes_similar ⟨6, true, true, true, true, true, false⟩
    ⟨fun n => n * 7 + 1, 0⟩ (by decide) rfl⟩

/-- C7: generation fails with `NoCharacterClassSelected` exactly when all
four `include*` flags are false — this is the only rejection condition. -/
theorem generate_rejects_iff_no_class (o : GenerationOptions) (r : RandomSource) :
    generatePassword o r = Except.error GenError.NoCharacterClassSelected ↔
      (o.includeUppercase = false ∧ o.includeLowercase = false ∧
        o.includeNumbers = false ∧ o.includeSymbols = false) := by
  unfold generatePassword
  by_cases h : validateOptions o = true
  · rw [if_pos h]
    unfold validateOptions at h
    simp only [Bool.or_eq_true] at h
    constructor
    · intro hcontra
      cases hcontra
    · rintro ⟨h1, h2, h3, h4⟩
      simp [h1, h2, h3, h4] at h
  · rw [if_neg h]
    unfold validateOptions at h
    simp only [Bool.or_eq_true, not_or, Bool.not_eq_true] at h
    obtain ⟨⟨⟨h1, h2⟩, h3⟩, h4⟩ := h
    simp [h1, h2, h3, h4]

/-- C10: on every input array and every sequence of random draws the
Fisher-Yates shuffle returns a list with exactly the same characters and
multiplicities — a permutation; it never adds, drops or duplicates
characters. -/
theorem shuffle_is_permutation (l : List Char) (r : RandomSource) (_h : l ≠ []) :
    List.Perm (shuffleArray l r).1 l ∧
      ∀ c : Char, List.count c (shuffleArray l r).1 = List.count c l :=
  ⟨shuffleArray_perm l r, fun c => (shuffleArray_perm l r).count_eq c⟩

/-- Witness for C10 at a concrete input. -/
theorem shuffle_is_permutation_witness :
    (['a', 'b', 'c'] ≠ ([] : List Char)) ∧
      List.Perm (shuffleArray ['a', 'b', 'c'] ⟨fun _ => 1, 0⟩).1 ['a', 'b', 'c'] :=
  ⟨by decide,
    (shuffle_is_permutation ['a', 'b', 'c'] ⟨fun _ => 1, 0⟩ (by decide)).1⟩

/-! Strength analyzer (`analyzePassword` and helpers in the source).
JS regex classes `[A-Z]`, `[a-z]`, `\d`, `[^A-Za-z0-9]` are the ASCII
ranges, matching `Char.isUpper`, `Char.isLower`, `Char.isDigit` and the
negation of `Char.isAlphanum`. -/

/-- `/[A-Z]/.test(password)`. -/
def hasUppercaseStr (p : String) : Bool := p.toList.any Char.isUpper

/-- `/[a-z]/.test(password)`. -/
def hasLowercaseStr (p : String) : Bool := p.toList.any Char.isLower

/-- `/\d/.test(password)`. -/
def hasNumbersStr (p : String) : Bool := p.toList.any Char.isDigit

/-- `/[^A-Za-z0-9]/.test(password)`. -/
def hasSymbolsStr (p : String) : Bool := p.toList.any (fun c => !c.isAlphanum)

/-- `hasRepeatedChars`: some character's first occurrence index differs
from its own index, i.e. some character occurs at two positions. -/
def hasRepeatedChars (p : String) : Bool :=
  let chars := p.toList
  chars.enum.any (fun ic => chars.indexOf ic.2 != ic.1)

/-- JS `String.prototype.includes` on character lists. -/
def containsList (needle hay : List Char) : Bool :=
  hay.tails.any (fun t => needle.isPrefixOf t)

/-- The reference sequences of `hasSequentialChars`. -/
def sequences : List (List Char) :=
  ["0123456789", "abcdefghijklmnopqrstuvwxyz", "qwertyuiop", "asdfghjkl",
    "zxcvbnm"].map String.toList

/-- `hasSequentialChars`: some 3-character window of a reference sequence,
forward or reversed, occurs in the lowercased password. -/
def hasSequentialChars (p : String) : Bool :=
  let lower := p.toList.map Char.toLower
  sequences.any (fun seq =>
    (List.range (seq.length - 2)).any (fun i =>
      let subseq := (seq.drop i).take 3
      containsList subseq lower || containsList subseq.reverse lower))

/-- The `charset` accumulator of `calculateEntropy`: nominal alphabet
sizes of the classes present. -/
def entropyCharset (p : String) : Nat :=
  (if hasLowercaseStr p then 26 else 0) + (if hasUppercaseStr p then 26 else 0) +
  (if hasNumbersStr p then 10 else 0) + (if hasSymbolsStr p then 32 else 0)

/-- `calculateEntropy`: `password.length * Math.log2(charset)`, modelled
over the reals. -/
noncomputable def calculateEntropy (p : String) : ℝ :=
  (p.length : ℝ) * Real.logb 2 (entropyCharset p)

/-- The analysis record built by `analyzePassword`. -/
structure Analysis where
  length : Nat
  hasUppercase : Bool
  hasLowercase : Bool
  hasNumbers : Bool
  hasSymbols : Bool
  hasRepeated : Bool
  hasSequential : Bool
  entropy : ℝ
  score : Int
  level : String

open Classical in
/-- `calculateStrengthScore`: length, class, and entropy bonuses, then
penalties, clamped to `[0, 100]`. -/
noncomputable def calculateStrengthScore (a : Analysis) : Int :=
  let score : Int :=
    (if 8 ≤ a.length then (25 : Int) else 0) +
    (if 12 ≤ a.length then 15 else 0) +
    (if 16 ≤ a.length then 10 else 0) +
    (if a.hasUppercase then 10 else 0) +
    (if a.hasLowercase then 10 else 0) +
    (if a.hasNumbers then 10 else 0) +
    (if a.hasSymbols then 15 else 0) +
    (if (40 : ℝ) < a.entropy then 10 else 0) +
    (if (60 : ℝ) < a.entropy then 5 else 0) -
    (if a.hasRepeated then 10 else 0) -
    (if a.hasSequential then 15 else 0) -
    (if a.length < 8 then 20 else 0)
  max 0 (min 100 score)

/-- `getStrengthLevel`: fixed thresholds, highest match wins. -/
def getStrengthLevel (score : Int) : String :=
  if 90 ≤ score then "Excellent"
  else if 75 ≤ score then "Strong"
  else if 60 ≤ score then "Good"
  else if 40 ≤ score then "Fair"
  else if 20 ≤ score then "Weak"
  else "Very Weak"

/-- The analysis object as first constructed inside `analyzePassword`
(before `score` and `level` are filled in). -/
noncomputable def baseAnalysis (p : String) : Analysis :=
  { length := p.length
    hasUppercase := hasUppercaseStr p
    hasLowercase := hasLowercaseStr p
    hasNumbers := hasNumbersStr p
    hasSymbols := hasSymbolsStr p
    hasRepeated := hasRepeatedChars p
    hasSequential := hasSequentialChars p
    entropy := calculateEntropy p
    score := 0
    level := "Very Weak" }

/-- `analyzePassword`: fill in `score` and `level`. -/
noncomputable def analyzePassword (p : String) : Analysis :=
  let a := baseAnalysis p
  { a with
    score := calculateStrengthScore a
    level := getStrengthLevel (calculateStrengthScore a) }

/-- `updateSuggestions`: the ordered suggestion list of the analyzer. -/
def passwordSuggestions (a : Analysis) : List String :=
  (if a.length < 8 then ["Use at least 8 characters"] else []) ++
  (if a.length < 12 then ["Use 12+ characters for better security"] else []) ++
  (if !a.hasUppercase then ["Add uppercase letters"] else []) ++
  (if !a.hasLowercase then ["Add lowercase letters"] else []) ++
  (if !a.hasNumbers then ["Add numbers"] else []) ++
  (if !a.hasSymbols then ["Add special characters"] else []) ++
  (if a.hasRepeated then ["Avoid repeated characters"] else []) ++
  (if a.hasSequential then ["Avoid sequential characters"] else [])

/-- Outcome of `checkPasswordStrength`: a falsy input resets the strength
meter (no report), otherwise the password is analyzed. -/
inductive StrengthCheckOutcome where
  | reset
  | report (a : Analysis)

/-- `checkPasswordStrength`: empty input short-circuits to the reset
(neutral) state without running the scoring path. -/
noncomputable def checkPasswordStrength (p : String) : StrengthCheckOutcome :=
  if p = "" then StrengthCheckOutcome.reset
  else StrengthCheckOutcome.report (analyzePassword p)

/-- Suggestions displayed for an outcome: the reset state hides them. -/
def outcomeSuggestions : StrengthCheckOutcome → List String
  | StrengthCheckOutcome.reset => []
  | StrengthCheckOutcome.report a => passwordSuggestions a

/-- Score displayed for an outcome: the reset state shows none. -/
def outcomeScore : StrengthCheckOutcome → Option Int
  | StrengthCheckOutcome.reset => none
  | StrengthCheckOutcome.report a => some a.score

/-- Projection lemmas for the pre-score analysis record. -/
@[simp] theorem baseAnalysis_length (p : String) : (baseAnalysis p).length = p.length := rfl

@[simp] theorem baseAnalysis_hasUppercase (p : String) :
    (baseAnalysis p).hasUppercase = hasUppercaseStr p := rfl

@[simp] theorem baseAnalysis_hasLowercase (p : String) :
    (baseAnalysis p).hasLowercase = hasLowercaseStr p := rfl

@[simp] theorem baseAnalysis_hasNumbers (p : String) :
    (baseAnalysis p).hasNumbers = hasNumbersStr p := rfl

@[simp] theorem baseAnalysis_hasSymbols (p : String) :
    (baseAnalysis p).hasSymbols = hasSymbolsStr p := rfl

@[simp] theorem baseAnalysis_hasRepeated (p : String) :
    (baseAnalysis p).hasRepeated = hasRepeatedChars p := rfl

@[simp] theorem baseAnalysis_hasSequential (p : String) :
    (baseAnalysis p).hasSequential = hasSequentialChars p := rfl

@[simp] theorem baseAnalysis_entropy (p : String) :
    (baseAnalysis p).entropy = calculateEntropy p := rfl

/-- The score field of a full analysis. -/
theorem analyzePassword_score (p : String) :
    (analyzePassword p).score = calculateStrengthScore (baseAnalysis p) := rfl

/-- C8: the analysis entry point is total; the empty string
short-circuits to the reset state — no suggestions, no score — and every
non-empty string goes through the (always defined) scoring path. -/
theorem analyze_total_empty_neutral :
    checkPasswordStrength "" = StrengthCheckOutcome.reset ∧
      outcomeSuggestions (checkPasswordStrength "") = [] ∧
      outcomeScore (checkPasswordStrength "") = none ∧
      ∀ p : String, p ≠ "" →
        checkPasswordStrength p = StrengthCheckOutcome.report (analyzePassword p) := by
  have he : checkPasswordStrength "" = StrengthCheckOutcome.reset := by
    unfold checkPasswordStrength
    rw [if_pos rfl]
  refine ⟨he, by rw [he]; rfl, by rw [he]; rfl, ?_⟩
  intro p hp
  unfold checkPasswordStrength
  rw [if_neg hp]

/-- Witness for C8 at a concrete non-empty input. -/
theorem analyze_total_empty_neutral_witness :
    checkPasswordStrength "a" = StrengthCheckOutcome.report (analyzePassword "a") :=
  analyze_total_empty_neutral.2.2.2 "a" (by decide)

/-- `entropyBits` as the spec words it: length times log2 of the summed
nominal alphabet sizes (26 lowercase, 26 uppercase, 10 digits, 32
symbols) of the classes present. -/
noncomputable def entropyBitsSpec (p : String) : ℝ :=
  (p.length : ℝ) * Real.logb 2
    ((if hasLowercaseStr p then (26 : ℝ) else 0) +
     (if hasUppercaseStr p then 26 else 0) +
     (if hasNumbersStr p then 10 else 0) +
     (if hasSymbolsStr p then 32 else 0))

open Classical in
/-- The strength score as the spec states it: base 0, the stated bonuses
and penalties added, then clamped to `[0, 100]`. -/
noncomputable def strengthScoreSpec (p : String) : Int :=
  min 100 (max 0
    ((if 8 ≤ p.length then (25 : Int) else 0) +
     (if 12 ≤ p.length then 15 else 0) +
     (if 16 ≤ p.length then 10 else 0) +
     (if hasUppercaseStr p then 10 else 0) +
     (if hasLowercaseStr p then 10 else 0) +
     (if hasNumbersStr p then 10 else 0) +
     (if hasSymbolsStr p then 15 else 0) +
     (if (40 : ℝ) < entropyBitsSpec p then 10 else 0) +
     (if (60 : ℝ) < entropyBitsSpec p then 5 else 0) +
     (if hasRepeatedChars p then -10 else 0) +
     (if hasSequentialChars p then -15 else 0) +
     (if p.length < 8 then -20 else 0)))

/-- The code's nominal charset size agrees with the spec's real-valued
sum of alphabet sizes. -/
theorem entropyCharset_cast (p : String) :
    ((entropyCharset p : Nat) : ℝ) =
      (if hasLowercaseStr p then (26 : ℝ) else 0) +
      (if hasUppercaseStr p then 26 else 0) +
      (if hasNumbersStr p then 10 else 0) +
      (if hasSymbolsStr p then 32 else 0) := by
  unfold entropyCharset
  cases hasLowercaseStr p <;> cases hasUppercaseStr p <;>
    cases hasNumbersStr p <;> cases hasSymbolsStr p <;> norm_num

/-- The code's entropy equals the spec's `entropyBits`. -/
theorem calculateEntropy_eq_spec (p : String) :
    calculateEntropy p = entropyBitsSpec p := by
  unfold calculateEntropy entropyBitsSpec
  rw [entropyCharset_cast]

/-- C5: for every non-empty password, the score computed by the code is
exactly the sum stated by the spec — the length, class and entropy
bonuses, minus the repeat/sequence/short-length penalties, clamped to
`[0, 100]`, with `entropyBits` the length times log2 of the summed
nominal alphabet sizes of the classes present. -/
theorem score_matches_spec (p : String) (_hp : p ≠ "") :
    (analyzePassword p).score = strengthScoreSpec p := by
  have hneg : ∀ (c : Prop) (inst : Decidable c) (n : Int),
      (if c then -n else 0) = -(if c then n else 0) := by
    intro c inst n
    split <;> simp
  rw [analyzePassword_score]
  unfold calculateStrengthScore strengthScoreSpec
  simp only [baseAnalysis_length, baseAnalysis_hasUppercase, baseAnalysis_hasLowercase,
    baseAnalysis_hasNumbers, baseAnalysis_hasSymbols, baseAnalysis_hasRepeated,
    baseAnalysis_hasSequential, baseAnalysis_entropy, calculateEntropy_eq_spec]
  rw [hneg _ _ 10, hneg _ _ 15, hneg _ _ 20]
  have hclamp : ∀ x : Int, max 0 (min 100 x) = min 100 (max 0 x) := by
    intro x
    omega
  rw [hclamp]
  ring_nf

/-- Witness for C5 at a concrete non-empty input. -/
theorem score_matches_spec_witness :
    ("abc" ≠ "") ∧ (analyzePassword "abc").score = strengthScoreSpec "abc" :=
  ⟨by decide, score_matches_spec "abc" (by decide)⟩

/-- A non-empty string has a non-empty character list. -/
theorem toList_ne_nil (p : String) (hp : p ≠ "") : p.toList ≠ [] := by
  intro h
  apply hp
  cases p with
  | mk data =>
    cases data with
    | nil => rfl
    | cons c cs => simp [String.toList] at h

/-- Every character of a non-empty password puts at least one class
presence flag on. -/
theorem some_class_present (p : String) (hp : p ≠ "") :
    hasLowercaseStr p = true ∨ hasUppercaseStr p = true ∨
      hasNumbersStr p = true ∨ hasSymbolsStr p = true := by
  obtain ⟨c, cs, h⟩ : ∃ c cs, p.toList = c :: cs := by
    rcases hl : p.toList with _ | ⟨c, cs⟩
    · exact absurd hl (toList_ne_nil p hp)
    · exact ⟨c, cs, rfl⟩
  have hc : c ∈ p.toList := by
    rw [h]
    exact List.mem_cons_self c cs
  by_cases h1 : c.isLower = true
  · exact Or.inl (by simp only [hasLowercaseStr, List.any_eq_true]; exact ⟨c, hc, h1⟩)
  by_cases h2 : c.isUpper = true
  · exact Or.inr (Or.inl
      (by simp only [hasUppercaseStr, List.any_eq_true]; exact ⟨c, hc, h2⟩))
  by_cases h3 : c.isDigit = true
  · exact Or.inr (Or.inr (Or.inl
      (by simp only [hasNumbersStr, List.any_eq_true]; exact ⟨c, hc, h3⟩)))
  refine Or.inr (Or.inr (Or.inr ?_))
  simp only [hasSymbolsStr, List.any_eq_true]
  refine ⟨c, hc, ?_⟩
  simp [Char.isAlphanum, Char.isAlpha, h1, h2, h3]

/-- The nominal charset of a non-empty password is at least 10. -/
theorem entropyCharset_ge (p : String) (hp : p ≠ "") : 10 ≤ entropyCharset p := by
  have h := some_class_present p hp
  unfold entropyCharset
  rcases h with h | h | h | h <;> simp only [h, if_true] <;> split_ifs <;> omega

/-- Entropy is monotone in length when the class flags agree. -/
theorem calculateEntropy_mono (p1 p2 : String) (h1 : p1 ≠ "")
    (hlen : p1.length ≤ p2.length)
    (hcs : entropyCharset p1 = entropyCharset p2) :
    calculateEntropy p1 ≤ calculateEntropy p2 := by
  unfold calculateEntropy
  rw [← hcs]
  have hL0 : 0 ≤ Real.logb 2 (entropyCharset p1) := by
    apply Real.logb_nonneg (by norm_num)
    have := entropyCharset_ge p1 h1
    have h10 : (10 : ℝ) ≤ (entropyCharset p1 : ℝ) := by exact_mod_cast this
    linarith
  exact mul_le_mul_of_nonneg_right (by exact_mod_cast hlen) hL0

/-- C6: for any two non-empty passwords with the second at least as long,
identical class presence flags and identical repeat/sequence flags, the
longer password scores at least as high. -/
theorem score_monotone_in_length (p1 p2 : String) (h1 : p1 ≠ "") (_h2 : p2 ≠ "")
    (hlen : p1.length ≤ p2.length)
    (hU : hasUppercaseStr p1 = hasUppercaseStr p2)
    (hL : hasLowercaseStr p1 = hasLowercaseStr p2)
    (hN : hasNumbersStr p1 = hasNumbersStr p2)
    (hS : hasSymbolsStr p1 = hasSymbolsStr p2)
    (hR : hasRepeatedChars p1 = hasRepeatedChars p2)
    (hQ : hasSequentialChars p1 = hasSequentialChars p2) :
    (analyzePassword p1).score ≤ (analyzePassword p2).score := by
  have hcs : entropyCharset p1 = entropyCharset p2 := by
    unfold entropyCharset
    rw [hU, hL, hN, hS]
  have he : calculateEntropy p1 ≤ calculateEntropy p2 :=
    calculateEntropy_mono p1 p2 h1 hlen hcs
  rw [analyzePassword_score, analyzePassword_score]
  unfold calculateStrengthScore
  simp only [baseAnalysis_length, baseAnalysis_hasUppercase, baseAnalysis_hasLowercase,
    baseAnalysis_hasNumbers, baseAnalysis_hasSymbols, baseAnalysis_hasRepeated,
    baseAnalysis_hasSequential, baseAnalysis_entropy]
  simp only [hU, hL, hN, hS, hR, hQ]
  refine max_le_max le_rfl (min_le_min le_rfl ?_)
  have l8 : (if 8 ≤ p1.length then (25 : Int) else 0) ≤
      (if 8 ≤ p2.length then 25 else 0) := by
    split_ifs <;> omega
  have l12 : (if 12 ≤ p1.length then (15 : Int) else 0) ≤
      (if 12 ≤ p2.length then 15 else 0) := by
    split_ifs <;> omega
  have l16 : (if 16 ≤ p1.length then (10 : Int) else 0) ≤
      (if 16 ≤ p2.length then 10 else 0) := by
    split_ifs <;> omega
  have e40 : (if (40 : ℝ) < calculateEntropy p1 then (10 : Int) else 0) ≤
      (if (40 : ℝ) < calculateEntropy p2 then 10 else 0) := by
    split_ifs <;> first | omega | linarith
  have e60 : (if (60 : ℝ) < calculateEntropy p1 then (5 : Int) else 0) ≤
      (if (60 : ℝ) < calculateEntropy p2 then 5 else 0) := by
    split_ifs <;> first | omega | linarith
  have pen : (if p2.length < 8 then (20 : Int) else 0) ≤
      (if p1.length < 8 then 20 else 0) := by
    split_ifs <;> omega
  linarith [l8, l12, l16, e40, e60, pen]

/-- Witness for C6 at concrete inputs `"aa"` and `"aaa"`. -/
theorem score_monotone_in_length_witness :
    ("aa" ≠ "") ∧ ("aaa" ≠ "") ∧ ("aa".length ≤ "aaa".length) ∧
      hasUppercaseStr "aa" = hasUppercaseStr "aaa" ∧
      hasLowercaseStr "aa" = hasLowercaseStr "aaa" ∧
      hasNumbersStr "aa" = hasNumbersStr "aaa" ∧
      hasSymbolsStr "aa" = hasSymbolsStr "aaa" ∧
      hasRepeatedChars "aa" = hasRepeatedChars "aaa" ∧
      hasSequentialChars "aa" = hasSequentialChars "aaa" ∧
      (analyzePassword "aa").score ≤ (analyzePassword "aaa").score :=
  ⟨by decide, by decide, by decide, by decide, by decide, by decide, by decide,
    by decide, by decide,
    score_monotone_in_length "aa" "aaa" (by decide) (by decide) (by decide)
      (by decide) (by decide) (by decide) (by decide) (by decide) (by decide)⟩

/-! Pattern detector (`PasswordTester` and `AdvancedAnalyzer` in the
source) and the extended analysis (`performAdvancedAnalysis`). -/

/-- `PasswordTester.commonPasswords`. -/
def commonPasswords : List String :=
  ["password", "123456", "password123", "admin", "qwerty",
   "letmein", "welcome", "monkey", "1234567890", "abc123"]

/-- `isCommonPassword`: case-insensitive substring match against the
common-password list. -/
def isCommonPassword (p : String) : Bool :=
  commonPasswords.any (fun common =>
    containsList (common.toList.map Char.toLower) (p.toList.map Char.toLower))

/-- A list of character predicates matching a prefix of a list. -/
def matchesPat : List (Char → Bool) → List Char → Bool
  | [], _ => true
  | _ :: _, [] => false
  | pq :: ps, c :: cs => pq c && matchesPat ps cs

/-- An unanchored regex-fragment match: the predicate list matches at some
position of the list. -/
def containsPat (ps : List (Char → Bool)) (l : List Char) : Bool :=
  l.tails.any (fun t => matchesPat ps t)

/-- `^word\d{min,}$` case-insensitive: the lowercased input starts with
`word` and the rest is all digits, at least `minDigits` of them. -/
def matchWordThenDigits (word : List Char) (minDigits : Nat) (p : String) : Bool :=
  let low := p.toList.map Char.toLower
  word.isPrefixOf low && (low.drop word.length).all Char.isDigit &&
    decide (minDigits ≤ (low.drop word.length).length)

/-- `checkAgainstLeaks`: the six regular-expression heuristics of the
source (`^password\d+$/i`, `^admin\d*$/i`, `^user\d*$/i`, `^test\d*$/i`,
`^\d{4,8}$`, `^[a-zA-Z]{1,8}$`). -/
def checkAgainstLeaks (p : String) : Bool :=
  let l := p.toList
  matchWordThenDigits "password".toList 1 p ||
  matchWordThenDigits "admin".toList 0 p ||
  matchWordThenDigits "user".toList 0 p ||
  matchWordThenDigits "test".toList 0 p ||
  (l.all Char.isDigit && decide (4 ≤ l.length) && decide (l.length ≤ 8)) ||
  (l.all Char.isAlpha && decide (1 ≤ l.length) && decide (l.length ≤ 8))

/-- The keyboard rows of `isKeyboardPattern`. -/
def keyboardRows : List (List Char) :=
  ["qwertyuiop", "asdfghjkl", "zxcvbnm", "1234567890"].map String.toList

/-- `isKeyboardPattern`: some 3-character window of a keyboard row occurs
in the lowercased password. -/
def isKeyboardPattern (p : String) : Bool :=
  let low := p.toList.map Char.toLower
  keyboardRows.any (fun row =>
    (List.range (row.length - 2)).any (fun i =>
      containsList ((row.drop i).take 3) low))

/-- `AdvancedAnalyzer.isDictionaryWord`'s word list. -/
def commonWords : List String :=
  ["password", "welcome", "hello", "world", "love", "family",
   "friend", "computer", "internet", "security", "login"]

/-- `isDictionaryWord`: some common word occurs in the lowercased
password. -/
def isDictionaryWord (p : String) : Bool :=
  commonWords.any (fun word => containsList word.toList (p.toList.map Char.toLower))

/-- A JS word character (`\w`): ASCII alphanumeric or underscore. -/
def isWordChar (c : Char) : Bool := c.isAlphanum || c == '_'

/-- The month prefixes of `mightBePersonalInfo`'s fifth pattern. -/
def monthNames : List (List Char) :=
  ["jan", "feb", "mar", "apr", "may", "jun", "jul", "aug", "sep", "oct",
   "nov", "dec"].map String.toList

/-- A month name starts (case-insensitively) at the head of the list. -/
def monthAtStart (l : List Char) : Bool :=
  monthNames.any (fun m => m.isPrefixOf (l.map Char.toLower))

/-- `\b(jan|...)/i` at a position after the first: the previous character
is a non-word character and a month name follows. -/
def monthAfterBoundary : List Char → Bool
  | [] => false
  | c :: cs => (!isWordChar c && monthAtStart cs) || monthAfterBoundary cs

/-- `/\b(jan|feb|...)/i.test(password)`. -/
def hasMonthMatch (l : List Char) : Bool :=
  monthAtStart l || monthAfterBoundary l

/-- `mightBePersonalInfo`: the five date-, year- and month-like regular
patterns of the source. -/
def mightBePersonalInfo (p : String) : Bool :=
  let l := p.toList
  let d := Char.isDigit
  let lit := fun (a : Char) (c : Char) => c == a
  containsPat [d, d, lit '/', d, d, lit '/', d, d, d, d] l ||
  containsPat [d, d, d, d, lit '-', d, d, lit '-', d, d] l ||
  containsPat [d, d, lit '-', d, d, lit '-', d, d, d, d] l ||
  (containsPat [lit '1', lit '9', d, d] l || containsPat [lit '2', lit '0', d, d] l) ||
  hasMonthMatch l

/-- `hasRepeatedSubstring`: some block of length 2..⌊n/2⌋ starting at
position `i` recurs in the remainder after it. -/
def hasRepeatedSubstring (p : String) : Bool :=
  let l := p.toList
  let n := l.length
  (List.range (n / 2 + 1)).any (fun len =>
    decide (2 ≤ len) && (List.range (n - 2 * len + 1)).any (fun i =>
      containsList ((l.drop i).take len) (l.drop (i + len))))

/-- The record built by `AdvancedAnalyzer.analyzePattern`. -/
structure Patterns where
  keyboard : Bool
  dictionary : Bool
  personal : Bool
  repeated : Bool

/-- `analyzePattern`. -/
def analyzePattern (p : String) : Patterns :=
  { keyboard := isKeyboardPattern p
    dictionary := isDictionaryWord p
    personal := mightBePersonalInfo p
    repeated := hasRepeatedSubstring p }

/-- One entry of the `recommendations` array: a severity tag and a text. -/
structure Recommendation where
  type : String
  text : String
deriving DecidableEq

open Classical in
/-- `getAdvancedRecommendations`: the seven conditional pushes, in source
order. -/
noncomputable def getAdvancedRecommendations (basic : Analysis)
    (patterns : Patterns) (isCommon isLeaked : Bool) : List Recommendation :=
  (if isCommon then [⟨"critical", "Avoid common passwords"⟩] else []) ++
  (if isLeaked then [⟨"critical", "This pattern appears in data breaches"⟩] else []) ++
  (if patterns.keyboard then [⟨"warning", "Avoid keyboard patterns"⟩] else []) ++
  (if patterns.dictionary then [⟨"warning", "Avoid dictionary words"⟩] else []) ++
  (if patterns.personal then [⟨"warning", "Avoid personal information like dates"⟩] else []) ++
  (if patterns.repeated then [⟨"info", "Avoid repeated character patterns"⟩] else []) ++
  (if basic.entropy < 50 then [⟨"info", "Increase password complexity"⟩] else [])

/-- The extended analysis record of `performAdvancedAnalysis`. -/
structure AdvancedAnalysis where
  basic : Analysis
  patterns : Patterns
  isCommon : Bool
  isLeaked : Bool
  recommendations : List Recommendation

/-- `performAdvancedAnalysis`. -/
noncomputable def performAdvancedAnalysis (p : String) : AdvancedAnalysis :=
  let basic := analyzePassword p
  let patterns := analyzePattern p
  let isCommon := isCommonPassword p
  let isLeaked := checkAgainstLeaks p
  { basic := basic
    patterns := patterns
    isCommon := isCommon
    isLeaked := isLeaked
    recommendations := getAdvancedRecommendations basic patterns isCommon isLeaked }

open Classical in
/-- The recommendation list as the spec states it: emitted in the order
common → leaked → keyboard → dictionary → personal → repeated →
low-entropy, each present exactly when its predicate holds, tagged
critical / critical / warning / warning / warning / info / info. -/
noncomputable def recommendationsSpec (p : String) : List Recommendation :=
  (if isCommonPassword p then [⟨"critical", "Avoid common passwords"⟩] else []) ++
  (if checkAgainstLeaks p then [⟨"critical", "This pattern appears in data breaches"⟩] else []) ++
  (if isKeyboardPattern p then [⟨"warning", "Avoid keyboard patterns"⟩] else []) ++
  (if isDictionaryWord p then [⟨"warning", "Avoid dictionary words"⟩] else []) ++
  (if mightBePersonalInfo p then [⟨"warning", "Avoid personal information like dates"⟩] else []) ++
  (if hasRepeatedSubstring p then [⟨"info", "Avoid repeated character patterns"⟩] else []) ++
  (if calculateEntropy p < 50 then [⟨"info", "Increase password complexity"⟩] else [])

/-- C9: for every input string, the extended analysis emits its
recommendations exactly as the spec orders and tags them. -/
theorem recommendations_match_spec (p : String) :
    (performAdvancedAnalysis p).recommendations = recommendationsSpec p := by
  show getAdvancedRecommendations (analyzePassword p) (analyzePattern p)
    (isCommonPassword p) (checkAgainstLeaks p) = recommendationsSpec p
  unfold getAdvancedRecommendations recommendationsSpec analyzePattern
  have hent : (analyzePassword p).entropy = calculateEntropy p := rfl
  rw [hent]

end PasswordGen
